import Mathlib

/-!
A shallow embedding of the theatre-enhance repository: the camera spline
path helpers (the UnitBezier solver, the axis sampler evaluateKeyframes,
the anchor reconciliation buildSharedEntries with its stable object keys,
the anchor/tangent edit pipeline collectHandleUpdates and
updateTangentKeyframeHandles, the anchor-handle change listener with its
echo checks and queueHandleUpdate, the tangent-line post filter of
computePath) together with the visibility store of src/extension.ts.

Modelling conventions, used consistently below:
 - JavaScript numbers are modelled as exact rationals.  A JS number that
   may be non-finite (NaN or an infinity) is modelled as Option ℚ, with
   none standing for any non-finite value; Number.isFinite v becomes
   v.isSome.  Decimal literals such as 1e-3 are modelled by the exact
   rationals written in the source text.
 - THREE.Vector3.distanceTo comparisons dist < eps are modelled by the
   equivalent squared comparison distSq < eps^2 (both sides nonnegative),
   which avoids square roots over ℚ without changing the decision.
 - The source's while-loop in the bisection phase of UnitBezier is
   modelled with an explicit fuel parameter; the development proves that
   the concrete fuel bisectFuelBound always suffices, which is the
   termination statement for the loop.
-/

namespace TheatreEnhance

/-- A JavaScript number that may be non-finite; none models NaN or ±∞. -/
abbrev JsNum := Option ℚ

/-- Source constant POSITION_EPSILON = 1e-3. -/
def POSITION_EPSILON : ℚ := 1 / 1000

/-- Source constant TIME_MATCH_EPSILON = 1e-2. -/
def TIME_MATCH_EPSILON : ℚ := 1 / 100

/-- Source constant HANDLE_DRAG_EPSILON = 0.008. -/
def HANDLE_DRAG_EPSILON : ℚ := 8 / 1000

/-- Source constant TANGENT_DRAG_EPSILON = 0.02. -/
def TANGENT_DRAG_EPSILON : ℚ := 2 / 100

/-- Source constant TIME_QUANTIZE = 1e-3. -/
def TIME_QUANTIZE : ℚ := 1 / 1000

/-- Source constant MAX_THEATRE_KEY_LENGTH = 64. -/
def MAX_THEATRE_KEY_LENGTH : ℕ := 64

/-- clamp01 from the source: Math.min(1, Math.max(0, value)). -/
def clamp01 (value : ℚ) : ℚ := min 1 (max 0 value)

/-- approxEqual from the source: Math.abs(a - b) <= eps.  The source's
default eps is POSITION_EPSILON; calls below pass it explicitly. -/
def approxEqual (a b eps : ℚ) : Bool := decide (|a - b| ≤ eps)

/-! ### The UnitBezier solver (source lines 135-206) -/

/-- Precomputed polynomial coefficients of the source class UnitBezier
(fields _cx _bx _ax _cy _by _ay; _by is rendered byc, since by is a
reserved word in Lean). -/
structure UnitBezier where
  cx : ℚ
  bx : ℚ
  ax : ℚ
  cy : ℚ
  byc : ℚ
  ay : ℚ
deriving DecidableEq

/-- The UnitBezier constructor from the four control ordinates. -/
def UnitBezier.mk4 (p1x p1y p2x p2y : ℚ) : UnitBezier :=
  let cx := 3 * p1x
  let bx := 3 * (p2x - p1x) - cx
  let ax := 1 - cx - bx
  let cy := 3 * p1y
  let byc := 3 * (p2y - p1y) - cy
  let ay := 1 - cy - byc
  ⟨cx, bx, ax, cy, byc, ay⟩

/-- _sampleCurveX. -/
def sampleCurveX (u : UnitBezier) (t : ℚ) : ℚ := ((u.ax * t + u.bx) * t + u.cx) * t

/-- _sampleCurveY. -/
def sampleCurveY (u : UnitBezier) (t : ℚ) : ℚ := ((u.ay * t + u.byc) * t + u.cy) * t

/-- _sampleCurveDerivativeX. -/
def sampleCurveDerivativeX (u : UnitBezier) (t : ℚ) : ℚ :=
  (3 * u.ax * t + 2 * u.bx) * t + u.cx

/-- The Newton-Raphson phase of _solveCurveX (its first for-loop, 8
iterations): some t on convergence, none when the loop breaks on a small
derivative or exhausts its iterations and the code falls through to the
bisection phase. -/
def newtonPhase (u : UnitBezier) (x eps : ℚ) : ℕ → ℚ → Option ℚ
  | 0, _ => none
  | n + 1, t2 =>
    let x2 := sampleCurveX u t2 - x
    if |x2| < eps then some t2
    else
      let d2 := sampleCurveDerivativeX u t2
      if |d2| < eps then none
      else newtonPhase u x eps n (t2 - x2 / d2)

/-- The bisection phase of _solveCurveX (its while-loop), with an explicit
fuel counting loop iterations; none models fuel exhaustion and is proved
below never to occur at fuel bisectFuelBound. -/
def bisectPhase (u : UnitBezier) (x eps : ℚ) : ℕ → ℚ → ℚ → ℚ → Option ℚ
  | 0, _, _, _ => none
  | n + 1, t0, t1, t2 =>
    if t0 < t1 then
      let x2 := sampleCurveX u t2
      if |x2 - x| < eps then some t2
      else if x > x2 then bisectPhase u x eps n t2 t1 ((t1 - t2) / 2 + t2)
      else bisectPhase u x eps n t0 t2 ((t2 - t0) / 2 + t0)
    else some t2

/-- A Lipschitz constant for sampleCurveX on the interval from 0 to 1,
used only to size the bisection fuel. -/
def lipX (u : UnitBezier) : ℚ := 3 * |u.ax| + 2 * |u.bx| + |u.cx|

/-- Fuel that always suffices for the bisection phase (proved below). -/
def bisectFuelBound (u : UnitBezier) (eps : ℚ) : ℕ := ⌈2 * lipX u / eps⌉₊ + 2

/-- _solveCurveX with explicit fuel for the bisection phase: the Newton
phase, then the pre-loop clamping of t2 = x to the unit interval, then the
bisection loop. -/
def solveCurveXFuel (u : UnitBezier) (x eps : ℚ) (fuel : ℕ) : Option ℚ :=
  match newtonPhase u x eps 8 x with
  | some t => some t
  | none =>
    if x < 0 then some 0
    else if x > 1 then some 1
    else bisectPhase u x eps fuel 0 1 x

/-- _solveCurveX at the fuel proved sufficient. -/
def UnitBezier.solveCurveX (u : UnitBezier) (x eps : ℚ) : Option ℚ :=
  solveCurveXFuel u x eps (bisectFuelBound u eps)

/-- The solver tolerance 1e-6 used by solveSimple. -/
def solveEps : ℚ := 1 / 1000000

/-- solveSimple: sampleCurveY of the solved parameter.  The getD 0 is a
total-function artifact; the totality theorem shows the option is always
some for x in the unit interval, so the default is never consulted there. -/
def UnitBezier.solveSimple (u : UnitBezier) (x : ℚ) : ℚ :=
  sampleCurveY u ((u.solveCurveX x solveEps).getD 0)

/-! ### Keyframes and the axis sampler evaluateKeyframes (lines 244-292) -/

/-- A Theatre keyframe as consumed by the source.  Fields h0 h1 h2 h3 are
handles[0] .. handles[3]; value may be non-finite; type is the source's
interpolation type string ("bezier" or "hold"). -/
structure Keyframe where
  id : String
  position : ℚ
  value : JsNum
  type : String
  connectedRight : Bool
  h0 : ℚ
  h1 : ℚ
  h2 : ℚ
  h3 : ℚ
deriving DecidableEq

/-- The body of evaluateKeyframes' bracketing for-loop, as a recursion over
adjacent pairs (left, right): skipped pairs recurse, a found pair is
evaluated, and falling off the end returns the fallback (line 291). -/
def evalGo (t : ℚ) (fb : JsNum) : Keyframe → List Keyframe → JsNum
  | _, [] => fb
  | left, right :: rest =>
    if t < left.position ∨ t > right.position then evalGo t fb right rest
    else if left.connectedRight = false ∨ left.type = "hold" then left.value
    else if right.position - left.position ≤ 0 then left.value
    else
      let segmentDuration := right.position - left.position
      let normalized := clamp01 ((t - left.position) / segmentDuration)
      let progression :=
        UnitBezier.solveSimple (UnitBezier.mk4 left.h2 left.h3 right.h0 right.h1) normalized
      match left.value, right.value with
      | some leftValue, some rightValue =>
        some (leftValue + (rightValue - leftValue) * progression)
      | _, _ => fb

/-- evaluateKeyframes (the axis sampler).  The early returns Number(value)
are the value fields themselves under the JsNum modelling. -/
def evaluateKeyframes (keyframes : List Keyframe) (t : ℚ) (fb : JsNum) : JsNum :=
  match keyframes with
  | [] => fb
  | first :: rest =>
    if t ≤ first.position then first.value
    else
      let lastK := rest.getLastD first
      if lastK.position ≤ t then lastK.value
      else evalGo t fb first rest

/-- The pair the bracketing loop of evaluateKeyframes stops at, mirroring
exactly the skip condition of evalGo. -/
def findBracketPair (t : ℚ) : Keyframe → List Keyframe → Option (Keyframe × Keyframe)
  | _, [] => none
  | left, right :: rest =>
    if t < left.position ∨ t > right.position then findBracketPair t right rest
    else some (left, right)

/-- The evaluation of one found bracketing pair (the non-skip branches of
the loop body of evaluateKeyframes). -/
def pairEval (t : ℚ) (fb : JsNum) (left right : Keyframe) : JsNum :=
  if left.connectedRight = false ∨ left.type = "hold" then left.value
  else if right.position - left.position ≤ 0 then left.value
  else
    let segmentDuration := right.position - left.position
    let normalized := clamp01 ((t - left.position) / segmentDuration)
    let progression :=
      UnitBezier.solveSimple (UnitBezier.mk4 left.h2 left.h3 right.h0 right.h1) normalized
    match left.value, right.value with
    | some leftValue, some rightValue =>
      some (leftValue + (rightValue - leftValue) * progression)
    | _, _ => fb

/-- The divisors that evaluateKeyframes' loop body actually divides by (the
segmentDuration of the one interpolated pair, when the bezier path runs);
mirror of evalGo restricted to its division. -/
def evalGoDivisors (t : ℚ) : Keyframe → List Keyframe → List ℚ
  | _, [] => []
  | left, right :: rest =>
    if t < left.position ∨ t > right.position then evalGoDivisors t right rest
    else if left.connectedRight = false ∨ left.type = "hold" then []
    else if right.position - left.position ≤ 0 then []
    else [right.position - left.position]

/-- All divisors used by one evaluateKeyframes call. -/
def evaluateKeyframesDivisors (keyframes : List Keyframe) (t : ℚ) : List ℚ :=
  match keyframes with
  | [] => []
  | first :: rest =>
    if t ≤ first.position then []
    else
      let lastK := rest.getLastD first
      if lastK.position ≤ t then []
      else evalGoDivisors t first rest

/-- Keyframes of one track sorted strictly by position (a Theatre track
keys keyframes by time, so positions within one track are distinct). -/
def strictlySorted (keyframes : List Keyframe) : Prop :=
  List.Chain' (fun a b => a.position < b.position) keyframes

/-- Keyframes weakly sorted by position, as produced by sortKeyframes. -/
def sortedByPosition (keyframes : List Keyframe) : Prop :=
  List.Chain' (fun a b => a.position ≤ b.position) keyframes

instance (keyframes : List Keyframe) : Decidable (strictlySorted keyframes) :=
  inferInstanceAs (Decidable (List.Chain' _ keyframes))

instance (keyframes : List Keyframe) : Decidable (sortedByPosition keyframes) :=
  inferInstanceAs (Decidable (List.Chain' _ keyframes))

/-! ### The tangent-line post filter of computePath (lines 1151-1163) -/

/-- A rendered point whose coordinates may each be non-finite. -/
abbrev JsVec3 := JsNum × JsNum × JsNum

/-- isFiniteVec3 from the source. -/
def isFiniteVec3 (p : JsVec3) : Bool := p.1.isSome && p.2.1.isSome && p.2.2.isSome

/-- safeTangentLinePoints: filter out non-finite points, then drop a
dangling odd last vertex (the pop in computePath). -/
def safeTangentLinePoints (pts : List JsVec3) : List JsVec3 :=
  let safe := pts.filter isFiniteVec3
  if safe.length % 2 ≠ 0 then safe.dropLast else safe

/-! ### The visibility store of src/extension.ts -/

/-- EnhanceState from src/extension.ts. -/
structure EnhanceState where
  helpersVisible : Bool
deriving DecidableEq

/-- A partial EnhanceState (the argument of setTheatreEnhanceState); an
absent helpersVisible field is none. -/
structure EnhanceStatePatch where
  helpersVisible : Option Bool
deriving DecidableEq

/-- The module-scoped initial state: helpersVisible = true. -/
def initialEnhanceState : EnhanceState := ⟨true⟩

/-- The object spread merging of setTheatreEnhanceState. -/
def mergeEnhanceState (current : EnhanceState) (next : EnhanceStatePatch) : EnhanceState :=
  ⟨next.helpersVisible.getD current.helpersVisible⟩

/-- setTheatreEnhanceState as a pure transition: the new stored state and
whether emit() ran (emit invokes every subscribed listener once, so the
Bool models exactly whether listeners are invoked). -/
def setTheatreEnhanceState (current : EnhanceState) (next : EnhanceStatePatch) :
    EnhanceState × Bool :=
  let updated := mergeEnhanceState current next
  if updated.helpersVisible = current.helpersVisible then (updated, false)
  else (updated, true)

/-! ### The anchor edit pipeline: collectHandleUpdates (lines 595-655) -/

/-- A queued handle-ratio write, as pushed into pendingHandleUpdates by
updateCameraKeyframe and updateTangentKeyframeHandles; startH/endH model
the optional start/end fields. -/
structure PendingHandleUpdate where
  trackId : String
  keyframeId : String
  startH : Option (ℚ × ℚ)
  endH : Option (ℚ × ℚ)
deriving DecidableEq

/-- Array.prototype.findIndex on keyframe ids, as an Option index. -/
def findIndexById : List Keyframe → String → Option ℕ
  | [], _ => none
  | kf :: rest, targetId =>
    if kf.id = targetId then some 0
    else (findIndexById rest targetId).map (· + 1)

/-- The nextY computed by the prev-neighbor block of collectHandleUpdates:
(oldControl + delta - prevValue) / denom with
oldControl = prevValue + (oldValue - prevValue) * oldRatio,
delta = newValue - oldValue and denom = newValue - prevValue.  The
next-neighbor block computes the mirror-image expression. -/
def compensatedEndRatio (prevValue oldValue newValue oldRatio : ℚ) : ℚ :=
  (prevValue + (oldValue - prevValue) * oldRatio + (newValue - oldValue) - prevValue) /
    (newValue - prevValue)

/-- collectHandleUpdates from updateCameraKeyframe: the neighbor-tangent
compensation for one axis.  newValue is the dragged position component,
already checked finite by the caller, hence a plain rational here. -/
def collectHandleUpdates (keyframes : List Keyframe) (current : Option Keyframe)
    (newValue : ℚ) (trackId : Option String) : List PendingHandleUpdate :=
  match trackId, current with
  | some tid, some cur =>
    match findIndexById keyframes cur.id with
    | none => []
    | some index =>
      match cur.value with
      | none => []
      | some oldValue =>
        let delta := newValue - oldValue
        if |delta| ≤ POSITION_EPSILON then []
        else
          let prevUpd :=
            match (if index = 0 then none else keyframes.get? (index - 1)) with
            | none => []
            | some prev =>
              if prev.connectedRight = true ∧ prev.type ≠ "hold" then
                match prev.value with
                | none => []
                | some prevValue =>
                  let denom := newValue - prevValue
                  if POSITION_EPSILON < |denom| then
                    let oldControl := prevValue + (oldValue - prevValue) * cur.h1
                    let nextY := (oldControl + delta - prevValue) / denom
                    if approxEqual nextY cur.h1 POSITION_EPSILON then []
                    else [⟨tid, cur.id, none, some (cur.h0, nextY)⟩]
                  else []
              else []
          let nextUpd :=
            match keyframes.get? (index + 1) with
            | none => []
            | some nxt =>
              if cur.connectedRight = true ∧ cur.type ≠ "hold" then
                match nxt.value with
                | none => []
                | some nextValue =>
                  let denom := nextValue - newValue
                  if POSITION_EPSILON < |denom| then
                    let oldControl := oldValue + (nextValue - oldValue) * cur.h3
                    let nextY := (oldControl + delta - newValue) / denom
                    if approxEqual nextY cur.h3 POSITION_EPSILON then []
                    else [⟨tid, cur.id, some (cur.h2, nextY), none⟩]
                  else []
              else []
          prevUpd ++ nextUpd
  | _, _ => []

/-! ### The tangent edit pipeline: updateTangentKeyframeHandles (1370-1520) -/

/-- The source's TangentKind; inn renders the reserved word in. -/
inductive TangentKind where
  | out
  | inn
deriving DecidableEq

/-- computeRatio from updateTangentKeyframeHandles (delta is finite for
rational inputs, so only the epsilon guard remains of the source's
non-finite-or-small test). -/
def computeRatio (start endV value fallbackR : ℚ) : ℚ :=
  let delta := endV - start
  if |delta| ≤ POSITION_EPSILON then fallbackR
  else (value - start) / delta

/-- The per-axis body of updateTangentKeyframeHandles' axisUpdates loop:
the update pushed for that axis, if any (a none trackId, a non-finite
endpoint value, or an unchanged ratio pushes nothing; the bezier-type
promotion accompanies every pushed update and targets its keyframe). -/
def tangentAxisUpdate (kind : TangentKind) (startKf endKf : Keyframe)
    (current : ℚ) (trackId : Option String) : Option PendingHandleUpdate :=
  match trackId with
  | none => none
  | some tid =>
    match startKf.value, endKf.value with
    | some startValue, some endValue =>
      match kind with
      | .out =>
        let nextY := computeRatio startValue endValue current startKf.h3
        if approxEqual nextY startKf.h3 POSITION_EPSILON then none
        else some ⟨tid, startKf.id, some (startKf.h2, nextY), none⟩
      | .inn =>
        let nextY := computeRatio startValue endValue current endKf.h1
        if approxEqual nextY endKf.h1 POSITION_EPSILON then none
        else some ⟨tid, endKf.id, none, some (endKf.h0, nextY)⟩
    | _, _ => none

/-! ### Stable object keys: hashKey and makeObjectKey (lines 42-56) -/

/-- One base-36 digit (0-9 then a-z), as produced by Number.toString(36). -/
def base36Char (n : ℕ) : Char :=
  if n < 10 then Char.ofNat (48 + n) else Char.ofNat (87 + n)

/-- Little-endian base-36 digits with structural fuel (the value shrinks by
division each step, so fuel equal to the value suffices). -/
def toBase36Go : ℕ → ℕ → List Char
  | 0, _ => []
  | _ + 1, 0 => []
  | fuel + 1, n + 1 => base36Char ((n + 1) % 36) :: toBase36Go fuel ((n + 1) / 36)

/-- Number.prototype.toString(36) for a nonnegative integer. -/
def toBase36 (n : ℕ) : String :=
  if n = 0 then "0" else String.mk (toBase36Go n n).reverse

/-- hashKey: the 32-bit FNV-1a style hash (xor with the character code,
then Math.imul by 16777619, tracked modulo 2^32) rendered base 36 as
(hash >>> 0).toString(36).  Characters contribute their code points (the
hashed ids are ASCII, where code point and UTF-16 unit coincide). -/
def hashKey (value : String) : String :=
  toBase36 (value.toList.foldl
    (fun hash c => ((Nat.xor hash c.toNat) * 16777619) % 4294967296)
    2166136261)

/-- makeObjectKey; pre renders the source's prefix parameter.  Natural
subtraction models Math.max(0, MAX_THEATRE_KEY_LENGTH - hash.length - 1). -/
def makeObjectKey (pre : String) (parts : List String) : String :=
  let hash := hashKey (String.intercalate "|" (pre :: parts))
  let maxPre := MAX_THEATRE_KEY_LENGTH - hash.length - 1
  let safePre := if pre.length > maxPre then pre.take maxPre else pre
  safePre ++ "_" ++ hash

/-! ### The anchor reconciler: buildSharedEntries (lines 942-1001) -/

/-- findClosestKeyframe's forEach (lines 61-76) with its mutable closest
and minDelta; minDelta starts as threshold ?? infinity, the none case of
the accumulator. -/
def findClosestAux (time : ℚ) : List Keyframe → Option Keyframe → Option ℚ → Option Keyframe
  | [], closest, _ => closest
  | kf :: rest, closest, minDelta =>
    let delta := |kf.position - time|
    match minDelta with
    | none => findClosestAux time rest (some kf) (some delta)
    | some m =>
      if delta ≤ m then findClosestAux time rest (some kf) (some delta)
      else findClosestAux time rest closest (some m)

/-- findClosestKeyframe. -/
def findClosestKeyframe (keyframes : List Keyframe) (time : ℚ)
    (threshold : Option ℚ) : Option Keyframe :=
  findClosestAux time keyframes none threshold

/-- Ascending insertion of a candidate time. -/
def insertTimeSorted (q : ℚ) : List ℚ → List ℚ
  | [] => [q]
  | a :: rest => if q ≤ a then q :: a :: rest else a :: insertTimeSorted q rest

/-- The numeric ascending sort of the deduplicated union of times. -/
def sortTimes (l : List ℚ) : List ℚ := l.foldr insertTimeSorted []

/-- A reconciled anchor entry: id-triple key, mean time, and the three
contributing keyframes. -/
structure SharedEntry where
  key : String
  time : ℚ
  x : Keyframe
  y : Keyframe
  z : Keyframe
deriving DecidableEq

/-- The forEach over candidate times of buildSharedEntries, carrying the
accumulated entry list and the sharedKey set (as a list of keys). -/
def buildEntriesAux (xK yK zK : List Keyframe) (threshold : Option ℚ) :
    List ℚ → List SharedEntry → List String → List SharedEntry
  | [], entries, _ => entries
  | time :: rest, entries, seen =>
    match findClosestKeyframe xK time threshold, findClosestKeyframe yK time threshold,
        findClosestKeyframe zK time threshold with
    | some x, some y, some z =>
      let key := x.id ++ "__" ++ y.id ++ "__" ++ z.id
      if key ∈ seen then buildEntriesAux xK yK zK threshold rest entries seen
      else
        buildEntriesAux xK yK zK threshold rest
          (entries ++ [⟨key, (x.position + y.position + z.position) / 3, x, y, z⟩])
          (key :: seen)
    | _, _, _ => buildEntriesAux xK yK zK threshold rest entries seen

/-- Stable insertion by mean time, modelling the stable Array sort with
comparator a.time - b.time. -/
def insertByTime (e : SharedEntry) : List SharedEntry → List SharedEntry
  | [] => [e]
  | a :: rest => if e.time ≤ a.time then e :: a :: rest else a :: insertByTime e rest

/-- entries.sort((a, b) => a.time - b.time). -/
def sortByTime (l : List SharedEntry) : List SharedEntry := l.foldr insertByTime []

/-- buildSharedEntries of computePath; sortedTimes (the deduplicated
ascending union of the three tracks' keyframe times, computed by the
enclosing scope in the source) is inlined. -/
def buildSharedEntries (xK yK zK : List Keyframe) (threshold : Option ℚ) : List SharedEntry :=
  let sortedTimes := sortTimes (((xK.map Keyframe.position) ++ yK.map Keyframe.position
    ++ zK.map Keyframe.position).dedup)
  sortByTime (buildEntriesAux xK yK zK threshold sortedTimes [] [])

/-- The anchor-handle object key of an entry (line 995). -/
def anchorEntryKey (pre : String) (e : SharedEntry) : String :=
  makeObjectKey pre [e.key]

/-- Two keyframes agreeing on id and position; the numeric value, handles,
type and connection flag may differ. -/
def SameIdPos (a b : Keyframe) : Prop := a.id = b.id ∧ a.position = b.position

/-- Pointwise SameIdPos on optional keyframes. -/
def OptSameIdPos : Option Keyframe → Option Keyframe → Prop
  | none, none => True
  | some a, some b => SameIdPos a b
  | _, _ => False

/-- Entries agreeing on key and mean time. -/
def EntryKeyTime (a b : SharedEntry) : Prop := a.key = b.key ∧ a.time = b.time

/-! ### The anchor-handle listener (1650-1705) and queueHandleUpdate (1353-1368) -/

/-- The component state visible to one anchor handle's onValuesChange
listener: the self-sync flag, this handle's entries in the expected-position
and pending-update maps, whether handleDataRef still holds this key, and
the bookkeeping set by queueHandleUpdate / scheduleHandleUnset (the
suppression deadline, raf and timer handles reduced to booleans). -/
structure AnchorListenerState where
  sync : Bool
  expected : Option (ℚ × ℚ × ℚ)
  pending : Option (ℚ × ℚ × ℚ)
  hasHandleData : Bool
  tangentBlockArmed : Bool
  rafScheduled : Bool
  unsetScheduled : Bool
deriving DecidableEq

/-- Squared euclidean distance (distanceTo comparisons are modelled on
squares, which decides the same inequality for nonnegative radii). -/
def distSq (a b : ℚ × ℚ × ℚ) : ℚ :=
  (a.1 - b.1) ^ 2 + (a.2.1 - b.2.1) ^ 2 + (a.2.2 - b.2.2) ^ 2

/-- queueHandleUpdate: arms the tangent-suppression window, stores the
position in the pending map (Map.set overwrites any entry for the key),
and leaves the flush raf scheduled. -/
def queueHandleUpdate (s : AnchorListenerState) (next : ℚ × ℚ × ℚ) : AnchorListenerState :=
  { s with tangentBlockArmed := true, pending := some next, rafScheduled := true }

/-- One observed position change delivered to an anchor handle's
onValuesChange listener; values.position may be missing or carry
non-finite coordinates. -/
def anchorListenerStep (s : AnchorListenerState)
    (positionValue : Option (JsNum × JsNum × JsNum)) : AnchorListenerState :=
  if s.sync then s
  else
    match positionValue with
    | none => s
    | some (vx, vy, vz) =>
      match vx, vy, vz with
      | some px, some py, some pz =>
        let nextPosition := (px, py, pz)
        match s.expected with
        | some expected =>
          if distSq expected nextPosition < HANDLE_DRAG_EPSILON ^ 2 then
            { s with expected := some nextPosition }
          else if approxEqual px expected.1 POSITION_EPSILON = true ∧
              approxEqual py expected.2.1 POSITION_EPSILON = true ∧
              approxEqual pz expected.2.2 POSITION_EPSILON = true then s
          else if s.hasHandleData then
            { queueHandleUpdate s nextPosition with unsetScheduled := true }
          else s
        | none =>
          if s.hasHandleData then
            { queueHandleUpdate s nextPosition with unsetScheduled := true }
          else s
      | _, _, _ => s

/-! ### Concrete keyframes used by witnesses and counterexamples -/

/-- A listener state holding a stale unflushed pending entry (1, 1, 1)
with expected position at the origin. -/
def c3State : AnchorListenerState :=
  ⟨false, some (0, 0, 0), some (1, 1, 1), true, false, false, false⟩

/-- One-keyframe tracks before a numeric edit. -/
def c6X : Keyframe := ⟨"x1", 0, some 1, "bezier", true, 0, 0, 1, 1⟩

def c6Y : Keyframe := ⟨"y1", 0, some 2, "bezier", true, 0, 0, 1, 1⟩

def c6Z : Keyframe := ⟨"z1", 0, some 3, "bezier", true, 0, 0, 1, 1⟩

/-- The same tracks after a numeric value edit (ids and positions kept). -/
def c6X2 : Keyframe := ⟨"x1", 0, some 9, "hold", false, 5, 5, 5, 5⟩

def c6Y2 : Keyframe := ⟨"y1", 0, some 8, "bezier", true, 0, 0, 1, 1⟩

def c6Z2 : Keyframe := ⟨"z1", 0, none, "bezier", true, 0, 0, 1, 1⟩

/-- Preceding neighbor for the compensation claims: value 0 at time 0. -/
def c2Prev : Keyframe := ⟨"p", 0, some 0, "bezier", true, 0, 0, 1, 1⟩

/-- The dragged keyframe: value 10 at time 10, incoming ratio handles[1]=2. -/
def c2Cur : Keyframe := ⟨"c", 10, some 10, "bezier", true, 0, 2, 1, 1⟩

/-- Segment start for the inverse-ratio claim: value 0, out ratio 0. -/
def c5Start : Keyframe := ⟨"s", 0, some 0, "bezier", true, 0, 0, 1, 0⟩

/-- Segment end for the inverse-ratio claim: value 10. -/
def c5End : Keyframe := ⟨"e", 10, some 10, "bezier", true, 0, 1, 1, 1⟩

/-- A hold keyframe at time 0 whose value is non-finite. -/
def c1HoldLeft : Keyframe := ⟨"a", 0, none, "hold", true, 0, 0, 0, 0⟩

/-- A bezier keyframe at time 10 with value 1. -/
def c1Right : Keyframe := ⟨"b", 10, some 1, "bezier", true, 0, 0, 1, 1⟩

/-- A connected bezier keyframe at time 0 whose value is non-finite. -/
def c1BezLeft : Keyframe := ⟨"a", 0, none, "bezier", true, 0, 0, 1, 1⟩

/-- Keyframes with a duplicated timestamp at time 5 inside the track. -/
def c10A : Keyframe := ⟨"a", 0, some 7, "hold", true, 0, 0, 1, 1⟩

def c10B : Keyframe := ⟨"b", 5, some 1, "bezier", true, 0, 0, 1, 1⟩

def c10C : Keyframe := ⟨"c", 5, some 2, "bezier", true, 0, 0, 1, 1⟩

def c10D : Keyframe := ⟨"d", 10, some 3, "bezier", true, 0, 0, 1, 1⟩

/-- A plain two-keyframe bezier track used to exhibit a division. -/
def c10W0 : Keyframe := ⟨"a", 0, some 0, "bezier", true, 0, 0, 1, 1⟩

def c10W1 : Keyframe := ⟨"b", 10, some 4, "bezier", true, 0, 0, 1, 1⟩

/-- A single bezier keyframe at time 0 with value 5. -/
def c7Kf : Keyframe := ⟨"a", 0, some 5, "bezier", true, 0, 0, 1, 1⟩

/-! ### Helper lemmas about the axis sampler -/

/-- With strictly increasing positions the last keyframe of a track is no
earlier than the first. -/
theorem getLastD_position_le (first : Keyframe) (rest : List Keyframe)
    (h : strictlySorted (first :: rest)) :
    first.position ≤ (rest.getLastD first).position := by
  induction rest generalizing first with
  | nil => simp
  | cons b bs ih =>
    rw [List.getLastD_cons]
    have hc := List.chain'_cons.mp h
    exact le_trans (le_of_lt hc.1) (ih b hc.2)

/-- Unfolding of evaluateKeyframes when neither early return fires. -/
theorem evaluateKeyframes_loop (first : Keyframe) (rest : List Keyframe) (t : ℚ) (fb : JsNum)
    (h1 : ¬ t ≤ first.position) (h2 : ¬ (rest.getLastD first).position ≤ t) :
    evaluateKeyframes (first :: rest) t fb = evalGo t fb first rest := by
  show (if t ≤ first.position then first.value
        else
          if (rest.getLastD first).position ≤ t then (rest.getLastD first).value
          else evalGo t fb first rest) = evalGo t fb first rest
  rw [if_neg h1, if_neg h2]

/-- Unfolding of evaluateKeyframes at or after the last keyframe. -/
theorem evaluateKeyframes_last (first : Keyframe) (rest : List Keyframe) (t : ℚ) (fb : JsNum)
    (h1 : ¬ t ≤ first.position) (h2 : (rest.getLastD first).position ≤ t) :
    evaluateKeyframes (first :: rest) t fb = (rest.getLastD first).value := by
  show (if t ≤ first.position then first.value
        else
          if (rest.getLastD first).position ≤ t then (rest.getLastD first).value
          else evalGo t fb first rest) = (rest.getLastD first).value
  rw [if_neg h1, if_pos h2]

/-- The bracketing loop of evaluateKeyframes evaluates exactly the pair the
scan stops at. -/
theorem evalGo_eq_pairEval (t : ℚ) (fb : JsNum) :
    ∀ (left : Keyframe) (rest : List Keyframe) (l r : Keyframe),
      findBracketPair t left rest = some (l, r) →
      evalGo t fb left rest = pairEval t fb l r := by
  intro left rest
  induction rest generalizing left with
  | nil => intro l r h; simp [findBracketPair] at h
  | cons right rest ih =>
    intro l r h
    rw [findBracketPair] at h
    rw [evalGo]
    by_cases hskip : t < left.position ∨ t > right.position
    · rw [if_pos hskip] at h ⊢
      exact ih right l r h
    · rw [if_neg hskip] at h ⊢
      obtain ⟨rfl, rfl⟩ : left = l ∧ right = r := by
        have := Option.some.inj h
        exact ⟨congrArg Prod.fst this, congrArg Prod.snd this⟩
      rfl

/-- Divisors produced by the loop body are positive. -/
theorem evalGoDivisors_pos (t : ℚ) :
    ∀ (left : Keyframe) (rest : List Keyframe) (d : ℚ),
      d ∈ evalGoDivisors t left rest → 0 < d := by
  intro left rest
  induction rest generalizing left with
  | nil => intro d hd; simp [evalGoDivisors] at hd
  | cons right rest ih =>
    intro d hd
    rw [evalGoDivisors] at hd
    split_ifs at hd with h1 h2 h3
    · exact ih right d hd
    · simp at hd
    · simp at hd
    · simp only [List.mem_singleton] at hd
      subst hd
      exact lt_of_not_le h3

/-! ### Claim C7: flat extrapolation -/

/-- C7: for every strictly position-sorted non-empty track, evaluateKeyframes
returns the first keyframe's value whenever the time is at or before the
first position, and the last keyframe's value whenever the time is at or
after the last position.  (Strict sortedness is the track invariant: a
Theatre track keys keyframes by time, so positions within a track are
distinct; with duplicated positions the first early-return would win.) -/
theorem flat_extrapolation (first : Keyframe) (rest : List Keyframe) (t : ℚ) (fb : JsNum)
    (hsorted : strictlySorted (first :: rest)) :
    (t ≤ first.position → evaluateKeyframes (first :: rest) t fb = first.value) ∧
    ((rest.getLastD first).position ≤ t →
      evaluateKeyframes (first :: rest) t fb = (rest.getLastD first).value) := by
  constructor
  · intro hle
    simp [evaluateKeyframes, hle]
  · intro hge
    by_cases hle : t ≤ first.position
    · cases rest with
      | nil => simp [evaluateKeyframes, hle]
      | cons b bs =>
        exfalso
        rw [List.getLastD_cons] at hge
        have h1 := (List.chain'_cons.mp hsorted).1
        have h2 := getLastD_position_le b bs (List.chain'_cons.mp hsorted).2
        linarith
    · exact evaluateKeyframes_last first rest t fb hle hge

/-- Witness for C7 at a concrete single-keyframe track and its own time. -/
theorem flat_extrapolation_witness :
    strictlySorted [c7Kf] ∧
    (((0 : ℚ) ≤ c7Kf.position → evaluateKeyframes [c7Kf] 0 none = c7Kf.value) ∧
      ((List.getLastD [] c7Kf).position ≤ (0 : ℚ) →
        evaluateKeyframes [c7Kf] 0 none = (List.getLastD [] c7Kf).value)) :=
  ⟨by simp [strictlySorted], flat_extrapolation c7Kf [] 0 none (by simp [strictlySorted])⟩

/-! ### Claim C1: non-finite endpoint guard of the axis sampler -/

/-- C1 counterexample: the claim asserts that a found bracketing pair with a
non-finite endpoint value yields the fallback even when the left keyframe is
hold-typed; but on a strictly sorted track with a hold left keyframe whose
value is non-finite, evaluateKeyframes returns that non-finite left value
(none), not the fallback some 0. -/
theorem nonfinite_guard_counterexample :
    strictlySorted [c1HoldLeft, c1Right] ∧
    c1HoldLeft.position < 5 ∧ (5 : ℚ) < c1Right.position ∧
    findBracketPair 5 c1HoldLeft [c1Right] = some (c1HoldLeft, c1Right) ∧
    c1HoldLeft.value = none ∧
    c1HoldLeft.type = "hold" ∧
    evaluateKeyframes [c1HoldLeft, c1Right] 5 (some 0) = none ∧
    evaluateKeyframes [c1HoldLeft, c1Right] 5 (some 0) ≠ some 0 := by
  refine ⟨?_, ?_, ?_, by decide, rfl, rfl, by decide, by decide⟩
  · simp [strictlySorted, List.chain'_cons, c1HoldLeft, c1Right]
  · norm_num [c1HoldLeft]
  · norm_num [c1Right]

/-- C1 (amended): the non-finite endpoint guard holds on the interpolating
path: if the bracketing scan stops at a pair whose left endpoint is
bezier-connected (connectedRight true and type not hold) with positive
segment duration, and either endpoint value is non-finite, then
evaluateKeyframes returns the fallback.  (When the left endpoint is hold or
not connected, the code instead returns left.value as-is, even non-finite,
as the counterexample shows.) -/
theorem nonfinite_guard_bezier_path (first : Keyframe) (rest : List Keyframe)
    (t : ℚ) (fb : JsNum) (l r : Keyframe)
    (hfirst : first.position < t)
    (hlast : t < (rest.getLastD first).position)
    (hfind : findBracketPair t first rest = some (l, r))
    (hconn : l.connectedRight = true)
    (hhold : l.type ≠ "hold")
    (hdur : 0 < r.position - l.position)
    (hnf : l.value = none ∨ r.value = none) :
    evaluateKeyframes (first :: rest) t fb = fb := by
  have h1 : ¬ t ≤ first.position := not_le.mpr hfirst
  have h2 : ¬ (rest.getLastD first).position ≤ t := not_le.mpr hlast
  rw [evaluateKeyframes_loop first rest t fb h1 h2]
  rw [evalGo_eq_pairEval t fb first rest l r hfind]
  unfold pairEval
  rw [if_neg (by simp [hconn, hhold]), if_neg (not_le.mpr hdur)]
  rcases hnf with h | h
  · cases hrv : r.value <;> simp [h, hrv]
  · cases hlv : l.value <;> simp [h, hlv]

/-- Witness for the amended C1 on a concrete connected bezier pair with a
non-finite left value. -/
theorem nonfinite_guard_bezier_path_witness :
    (c1BezLeft.position < 5 ∧ (5 : ℚ) < (List.getLastD [c1Right] c1BezLeft).position ∧
      findBracketPair 5 c1BezLeft [c1Right] = some (c1BezLeft, c1Right) ∧
      c1BezLeft.value = none) ∧
    evaluateKeyframes [c1BezLeft, c1Right] 5 (some 0) = some 0 :=
  ⟨⟨by norm_num [c1BezLeft], by norm_num [c1Right], by decide, rfl⟩,
    nonfinite_guard_bezier_path c1BezLeft [c1Right] 5 (some 0) c1BezLeft c1Right
      (by norm_num [c1BezLeft]) (by norm_num [c1Right]) (by decide) rfl
      (by decide) (by norm_num [c1BezLeft, c1Right]) (Or.inl rfl)⟩

/-! ### Claim C10: zero-duration-segment guard -/

/-- C10 counterexample: a weakly sorted track with a duplicated timestamp
contains a bracketing pair of non-positive duration at the query time, with
the time strictly inside the track; but evaluateKeyframes does not return
that pair's left value: the scan stops at the earlier enclosing pair, whose
hold left endpoint yields some 7 instead of the degenerate pair's left
value some 1. -/
theorem zero_duration_guard_counterexample :
    sortedByPosition [c10A, c10B, c10C, c10D] ∧
    c10C.position - c10B.position ≤ 0 ∧
    c10B.position ≤ 5 ∧ (5 : ℚ) ≤ c10C.position ∧
    c10A.position < 5 ∧ (5 : ℚ) < c10D.position ∧
    evaluateKeyframes [c10A, c10B, c10C, c10D] 5 (some 0) = some 7 ∧
    evaluateKeyframes [c10A, c10B, c10C, c10D] 5 (some 0) ≠ c10B.value := by
  refine ⟨?_, ?_, ?_, ?_, ?_, ?_, by decide, by decide⟩
  · simp [sortedByPosition, List.chain'_cons, c10A, c10B, c10C, c10D]
    norm_num
  · norm_num [c10B, c10C]
  · norm_num [c10B]
  · norm_num [c10C]
  · norm_num [c10A]
  · norm_num [c10D]

/-- C10 (amended): the degenerate-duration branch of evaluateKeyframes is
never the source of a division: every divisor the sampler actually divides
by (the segmentDuration of the interpolated pair) is strictly positive, so
the guarded division can never divide by zero. -/
theorem zero_duration_guard_divisors (keyframes : List Keyframe) (t : ℚ) (d : ℚ)
    (hd : d ∈ evaluateKeyframesDivisors keyframes t) : 0 < d := by
  cases keyframes with
  | nil => simp [evaluateKeyframesDivisors] at hd
  | cons first rest =>
    have hd2 : d ∈ (if t ≤ first.position then ([] : List ℚ)
        else
          if (rest.getLastD first).position ≤ t then []
          else evalGoDivisors t first rest) := hd
    split_ifs at hd2 with h1 h2
    · simp at hd2
    · simp at hd2
    · exact evalGoDivisors_pos t first rest d hd2

/-- Witness for the amended C10: a run whose interpolating pair divides by
its duration 10, which is positive. -/
theorem zero_duration_guard_divisors_witness :
    (10 : ℚ) ∈ evaluateKeyframesDivisors [c10W0, c10W1] 5 ∧ (0 : ℚ) < 10 :=
  ⟨by norm_num [evaluateKeyframesDivisors, evalGoDivisors, c10W0, c10W1]; decide,
    zero_duration_guard_divisors [c10W0, c10W1] 5 10
      (by norm_num [evaluateKeyframesDivisors, evalGoDivisors, c10W0, c10W1]; decide)⟩

/-! ### Claim C4: bezier solver totality -/

/-- The cubic vanishes at t = 0 for every coefficient set. -/
theorem sampleCurveX_zero (u : UnitBezier) : sampleCurveX u 0 = 0 := by
  simp [sampleCurveX]

/-- Constructed coefficients reach x = 1 at t = 1. -/
theorem sampleCurveX_one (p1x p1y p2x p2y : ℚ) :
    sampleCurveX (UnitBezier.mk4 p1x p1y p2x p2y) 1 = 1 := by
  simp only [sampleCurveX, UnitBezier.mk4]
  ring

/-- The fuel-sizing constant is nonnegative. -/
theorem lipX_nonneg (u : UnitBezier) : 0 ≤ lipX u := by
  unfold lipX
  positivity

/-- Factored difference of the cubic. -/
theorem sampleCurveX_sub_factor (u : UnitBezier) (s t : ℚ) :
    sampleCurveX u t - sampleCurveX u s
      = (t - s) * (u.ax * (t ^ 2 + t * s + s ^ 2) + u.bx * (t + s) + u.cx) := by
  simp only [sampleCurveX]
  ring

/-- Lipschitz bound for sampleCurveX on the unit interval. -/
theorem sampleCurveX_lipschitz (u : UnitBezier) {s t : ℚ}
    (h0 : 0 ≤ s) (hst : s ≤ t) (h1 : t ≤ 1) :
    |sampleCurveX u t - sampleCurveX u s| ≤ lipX u * (t - s) := by
  have hs1 : s ≤ 1 := le_trans hst h1
  have ht0 : 0 ≤ t := le_trans h0 hst
  have hA0 : 0 ≤ t ^ 2 + t * s + s ^ 2 :=
    add_nonneg (add_nonneg (pow_nonneg ht0 2) (mul_nonneg ht0 h0)) (pow_nonneg h0 2)
  have ht2 : t ^ 2 ≤ 1 := by nlinarith
  have hs2 : s ^ 2 ≤ 1 := by nlinarith
  have hts : t * s ≤ 1 := by nlinarith
  have hA3 : t ^ 2 + t * s + s ^ 2 ≤ 3 := by linarith
  have hB0 : 0 ≤ t + s := by linarith
  have hB2 : t + s ≤ 2 := by linarith
  rw [sampleCurveX_sub_factor, abs_mul, abs_of_nonneg (sub_nonneg.mpr hst)]
  rw [mul_comm (lipX u) (t - s)]
  refine mul_le_mul_of_nonneg_left ?_ (sub_nonneg.mpr hst)
  calc |u.ax * (t ^ 2 + t * s + s ^ 2) + u.bx * (t + s) + u.cx|
      ≤ |u.ax * (t ^ 2 + t * s + s ^ 2) + u.bx * (t + s)| + |u.cx| := abs_add _ _
    _ ≤ |u.ax * (t ^ 2 + t * s + s ^ 2)| + |u.bx * (t + s)| + |u.cx| := by
        have := abs_add (u.ax * (t ^ 2 + t * s + s ^ 2)) (u.bx * (t + s))
        linarith
    _ = |u.ax| * (t ^ 2 + t * s + s ^ 2) + |u.bx| * (t + s) + |u.cx| := by
        rw [abs_mul, abs_mul, abs_of_nonneg hA0, abs_of_nonneg hB0]
    _ ≤ |u.ax| * 3 + |u.bx| * 2 + |u.cx| := by
        have hm1 := mul_le_mul_of_nonneg_left hA3 (abs_nonneg u.ax)
        have hm2 := mul_le_mul_of_nonneg_left hB2 (abs_nonneg u.bx)
        linarith
    _ = lipX u := by unfold lipX; ring

/-- Inside a bracketing interval any sample between the bounds is close to
x once the interval is short. -/
theorem sample_mid_close (u : UnitBezier) {x t0 t1 t2 : ℚ}
    (h00 : 0 ≤ t0) (h02 : t0 ≤ t2) (h21 : t2 ≤ t1) (h11 : t1 ≤ 1)
    (hl : sampleCurveX u t0 ≤ x) (hr : x ≤ sampleCurveX u t1) :
    |sampleCurveX u t2 - x| ≤ 2 * lipX u * (t1 - t0) := by
  have h01 : t0 ≤ t1 := le_trans h02 h21
  have hb1 : |sampleCurveX u t2 - sampleCurveX u t0| ≤ lipX u * (t2 - t0) :=
    sampleCurveX_lipschitz u h00 h02 (le_trans h21 h11)
  have hb2 : |sampleCurveX u t1 - sampleCurveX u t0| ≤ lipX u * (t1 - t0) :=
    sampleCurveX_lipschitz u h00 h01 h11
  have hlip := lipX_nonneg u
  have hmono : lipX u * (t2 - t0) ≤ lipX u * (t1 - t0) :=
    mul_le_mul_of_nonneg_left (by linarith) hlip
  have htri : |sampleCurveX u t2 - x|
      ≤ |sampleCurveX u t2 - sampleCurveX u t0| + |sampleCurveX u t0 - x| :=
    abs_sub_le _ _ _
  have habs : |sampleCurveX u t0 - x| = x - sampleCurveX u t0 := by
    rw [abs_sub_comm]
    exact abs_of_nonneg (by linarith)
  have hfr : sampleCurveX u t1 - sampleCurveX u t0
      ≤ |sampleCurveX u t1 - sampleCurveX u t0| := le_abs_self _
  linarith

/-- The bisection loop succeeds from a midpoint state whenever the
bracketing invariant holds and the fuel covers the interval length. -/
theorem bisectPhase_isSome (u : UnitBezier) (x eps : ℚ) :
    ∀ (k : ℕ) (t0 t1 : ℚ), 0 ≤ t0 → t1 ≤ 1 → t0 ≤ t1 →
      sampleCurveX u t0 ≤ x → x ≤ sampleCurveX u t1 →
      2 * lipX u * (t1 - t0) < eps * 2 ^ k →
      (bisectPhase u x eps (k + 1) t0 t1 ((t1 - t0) / 2 + t0)).isSome := by
  intro k
  induction k with
  | zero =>
    intro t0 t1 h00 h11 h01 hl hr hfuel
    by_cases hlt : t0 < t1
    · have h02 : t0 ≤ (t1 - t0) / 2 + t0 := by linarith
      have h21 : (t1 - t0) / 2 + t0 ≤ t1 := by linarith
      have hclose : |sampleCurveX u ((t1 - t0) / 2 + t0) - x| < eps := by
        have hmid := sample_mid_close u h00 h02 h21 h11 hl hr
        have h20 : eps * 2 ^ 0 = eps := by norm_num
        linarith
      simp only [bisectPhase, if_pos hlt, if_pos hclose, Option.isSome_some]
    · simp only [bisectPhase, if_neg hlt, Option.isSome_some]
  | succ k ih =>
    intro t0 t1 h00 h11 h01 hl hr hfuel
    by_cases hlt : t0 < t1
    · by_cases hclose : |sampleCurveX u ((t1 - t0) / 2 + t0) - x| < eps
      · simp only [bisectPhase, if_pos hlt, if_pos hclose, Option.isSome_some]
      · have h02 : t0 ≤ (t1 - t0) / 2 + t0 := by linarith
        have h21 : (t1 - t0) / 2 + t0 ≤ t1 := by linarith
        by_cases hgt : x > sampleCurveX u ((t1 - t0) / 2 + t0)
        · have heq : 2 * lipX u * (t1 - ((t1 - t0) / 2 + t0)) = lipX u * (t1 - t0) := by
            ring
          have hfuel2 : 2 * lipX u * (t1 - ((t1 - t0) / 2 + t0)) < eps * 2 ^ k := by
            rw [heq, pow_succ] at *
            linarith
          have hrec := ih ((t1 - t0) / 2 + t0) t1 (by linarith) h11 h21
            (le_of_lt hgt) hr hfuel2
          simp only [bisectPhase, if_pos hlt, if_neg hclose, if_pos hgt]
          exact hrec
        · have heq : 2 * lipX u * ((t1 - t0) / 2 + t0 - t0) = lipX u * (t1 - t0) := by
            ring
          have hfuel2 : 2 * lipX u * ((t1 - t0) / 2 + t0 - t0) < eps * 2 ^ k := by
            rw [heq, pow_succ] at *
            linarith
          have hrec := ih t0 ((t1 - t0) / 2 + t0) h00 (le_trans h21 h11) h02 hl
            (not_lt.mp hgt) hfuel2
          simp only [bisectPhase, if_pos hlt, if_neg hclose, if_neg hgt]
          exact hrec
    · simp only [bisectPhase, if_neg hlt, Option.isSome_some]

/-- C4: for all finite control ordinates and every x in the unit interval,
solveCurveX (Newton-Raphson up to 8 steps at tolerance 1e-6, the pre-loop
clamp of t to the unit interval, then bisection at the computed fuel)
returns a value — the loop terminates within bisectFuelBound iterations —
and solveSimple is its sampleCurveY, a (finite) rational. -/
theorem bezier_solver_total (p1x p1y p2x p2y x : ℚ) (hx0 : 0 ≤ x) (hx1 : x ≤ 1) :
    ∃ t, UnitBezier.solveCurveX (UnitBezier.mk4 p1x p1y p2x p2y) x solveEps = some t ∧
      UnitBezier.solveSimple (UnitBezier.mk4 p1x p1y p2x p2y) x
        = sampleCurveY (UnitBezier.mk4 p1x p1y p2x p2y) t := by
  set u := UnitBezier.mk4 p1x p1y p2x p2y with hu
  have heps : (0 : ℚ) < solveEps := by norm_num [solveEps]
  have hone : sampleCurveX u 1 = 1 := by rw [hu]; exact sampleCurveX_one p1x p1y p2x p2y
  have hzero : sampleCurveX u 0 = 0 := sampleCurveX_zero u
  have hKb : 2 * lipX u < solveEps * 2 ^ (⌈2 * lipX u / solveEps⌉₊) := by
    have h1 : (2 * lipX u / solveEps : ℚ) ≤ ((⌈2 * lipX u / solveEps⌉₊ : ℕ) : ℚ) :=
      Nat.le_ceil _
    have h2 : (((⌈2 * lipX u / solveEps⌉₊ : ℕ) : ℚ)) < (2 : ℚ) ^ (⌈2 * lipX u / solveEps⌉₊) := by
      exact_mod_cast Nat.lt_two_pow _
    have h3 : 2 * lipX u / solveEps < (2 : ℚ) ^ (⌈2 * lipX u / solveEps⌉₊) := lt_of_le_of_lt h1 h2
    rw [div_lt_iff₀ heps] at h3
    linarith
  have hsome : (UnitBezier.solveCurveX u x solveEps).isSome := by
    unfold UnitBezier.solveCurveX solveCurveXFuel
    rcases hN : newtonPhase u x solveEps 8 x with _ | t
    · simp only [hN]
      rw [if_neg (not_lt.mpr hx0), if_neg (not_lt.mpr hx1)]
      have hfb : bisectFuelBound u solveEps = (⌈2 * lipX u / solveEps⌉₊ + 1) + 1 := rfl
      rw [hfb]
      have h01 : (0 : ℚ) < 1 := by norm_num
      by_cases hclose : |sampleCurveX u x - x| < solveEps
      · simp only [bisectPhase, if_pos h01, if_pos hclose, Option.isSome_some]
      · by_cases hgt : x > sampleCurveX u x
        · have hrec := bisectPhase_isSome u x solveEps (⌈2 * lipX u / solveEps⌉₊) x 1
            hx0 le_rfl hx1 (le_of_lt hgt) (by rw [hone]; exact hx1) ?_
          · simp only [bisectPhase, if_pos h01, if_neg hclose, if_pos hgt]
            exact hrec
          · have hbnd : 2 * lipX u * (1 - x) ≤ 2 * lipX u := by
              nlinarith [lipX_nonneg u]
            linarith
        · have hrec := bisectPhase_isSome u x solveEps (⌈2 * lipX u / solveEps⌉₊) 0 x
            le_rfl hx1 hx0 (by rw [hzero]; exact hx0) (not_lt.mp hgt) ?_
          · simp only [bisectPhase, if_pos h01, if_neg hclose, if_neg hgt]
            exact hrec
          · have hbnd : 2 * lipX u * (x - 0) ≤ 2 * lipX u := by
              nlinarith [lipX_nonneg u]
            linarith
    · simp only [hN, Option.isSome_some]
  obtain ⟨t, ht⟩ := Option.isSome_iff_exists.mp hsome
  refine ⟨t, ht, ?_⟩
  unfold UnitBezier.solveSimple
  rw [ht]
  rfl

/-- Witness for C4 at the linear-equivalent control points and x = 1/2. -/
theorem bezier_solver_total_witness :
    ((0 : ℚ) ≤ 1 / 2 ∧ (1 / 2 : ℚ) ≤ 1) ∧
    ∃ t, UnitBezier.solveCurveX (UnitBezier.mk4 (1 / 3) (1 / 3) (2 / 3) (2 / 3)) (1 / 2)
        solveEps = some t ∧
      UnitBezier.solveSimple (UnitBezier.mk4 (1 / 3) (1 / 3) (2 / 3) (2 / 3)) (1 / 2)
        = sampleCurveY (UnitBezier.mk4 (1 / 3) (1 / 3) (2 / 3) (2 / 3)) t :=
  ⟨⟨by norm_num, by norm_num⟩,
    bezier_solver_total (1 / 3) (1 / 3) (2 / 3) (2 / 3) (1 / 2) (by norm_num) (by norm_num)⟩

/-! ### Claim C6: anchor identity stability -/

/-- Tracks related by SameIdPos have equal position lists. -/
theorem forall₂_sameIdPos_posmap {l l' : List Keyframe}
    (h : List.Forall₂ SameIdPos l l') :
    l.map Keyframe.position = l'.map Keyframe.position := by
  induction h with
  | nil => rfl
  | cons h1 h2 ih => simp [h1.2, ih]

/-- OptSameIdPos transports a none result. -/
theorem optSameIdPos_none {o o' : Option Keyframe} (h : OptSameIdPos o o')
    (h0 : o = none) : o' = none := by
  subst h0
  cases o' with
  | none => rfl
  | some b => exact absurd h (by simp [OptSameIdPos])

/-- OptSameIdPos transports a some result. -/
theorem optSameIdPos_some {o o' : Option Keyframe} {a : Keyframe}
    (h : OptSameIdPos o o') (h0 : o = some a) :
    ∃ b, o' = some b ∧ SameIdPos a b := by
  subst h0
  cases o' with
  | none => exact absurd h (by simp [OptSameIdPos])
  | some b => exact ⟨b, rfl, h⟩

/-- The nearest-keyframe scan depends only on ids and positions. -/
theorem findClosestAux_rel (time : ℚ) {l l' : List Keyframe}
    (h : List.Forall₂ SameIdPos l l') :
    ∀ (c c' : Option Keyframe) (m : Option ℚ), OptSameIdPos c c' →
      OptSameIdPos (findClosestAux time l c m) (findClosestAux time l' c' m) := by
  induction h with
  | nil => intro c c' m hc; exact hc
  | @cons a b l1 l2 h1 h2 ih =>
    intro c c' m hc
    simp only [findClosestAux]
    rw [← h1.2]
    cases m with
    | none => exact ih _ _ _ h1
    | some mv =>
      by_cases hd : |a.position - time| ≤ mv
      · simp only [if_pos hd]
        exact ih _ _ _ h1
      · simp only [if_neg hd]
        exact ih _ _ _ hc

/-- Appending one related element preserves Forall₂. -/
theorem forall₂_append_single {α : Type} {R : α → α → Prop} {l l' : List α} {a b : α}
    (h : List.Forall₂ R l l') (hab : R a b) :
    List.Forall₂ R (l ++ [a]) (l' ++ [b]) := by
  induction h with
  | nil => exact .cons hab .nil
  | cons h1 h2 ih => exact .cons h1 ih

/-- The candidate-time fold produces key/time-identical entry lists for
tracks related by SameIdPos. -/
theorem buildEntriesAux_rel {xK xK' yK yK' zK zK' : List Keyframe}
    (hx : List.Forall₂ SameIdPos xK xK') (hy : List.Forall₂ SameIdPos yK yK')
    (hz : List.Forall₂ SameIdPos zK zK') (threshold : Option ℚ) :
    ∀ (times : List ℚ) (es es' : List SharedEntry) (seen : List String),
      List.Forall₂ EntryKeyTime es es' →
      List.Forall₂ EntryKeyTime (buildEntriesAux xK yK zK threshold times es seen)
        (buildEntriesAux xK' yK' zK' threshold times es' seen) := by
  intro times
  induction times with
  | nil => intro es es' seen hes; exact hes
  | cons time rest ih =>
    intro es es' seen hes
    have hxr : OptSameIdPos (findClosestKeyframe xK time threshold)
        (findClosestKeyframe xK' time threshold) :=
      findClosestAux_rel time hx none none threshold trivial
    have hyr : OptSameIdPos (findClosestKeyframe yK time threshold)
        (findClosestKeyframe yK' time threshold) :=
      findClosestAux_rel time hy none none threshold trivial
    have hzr : OptSameIdPos (findClosestKeyframe zK time threshold)
        (findClosestKeyframe zK' time threshold) :=
      findClosestAux_rel time hz none none threshold trivial
    cases hox : findClosestKeyframe xK time threshold with
    | none =>
      have hox' : findClosestKeyframe xK' time threshold = none := optSameIdPos_none hxr hox
      simp only [buildEntriesAux, hox, hox']
      exact ih es es' seen hes
    | some x =>
      obtain ⟨x', hox', hxx⟩ := optSameIdPos_some hxr hox
      cases hoy : findClosestKeyframe yK time threshold with
      | none =>
        have hoy' : findClosestKeyframe yK' time threshold = none := optSameIdPos_none hyr hoy
        simp only [buildEntriesAux, hox, hox', hoy, hoy']
        exact ih es es' seen hes
      | some y =>
        obtain ⟨y', hoy', hyy⟩ := optSameIdPos_some hyr hoy
        cases hoz : findClosestKeyframe zK time threshold with
        | none =>
          have hoz' : findClosestKeyframe zK' time threshold = none := optSameIdPos_none hzr hoz
          simp only [buildEntriesAux, hox, hox', hoy, hoy', hoz, hoz']
          exact ih es es' seen hes
        | some z =>
          obtain ⟨z', hoz', hzz⟩ := optSameIdPos_some hzr hoz
          simp only [buildEntriesAux, hox, hox', hoy, hoy', hoz, hoz']
          rw [← hxx.1, ← hyy.1, ← hzz.1, ← hxx.2, ← hyy.2, ← hzz.2]
          by_cases hseen : x.id ++ "__" ++ y.id ++ "__" ++ z.id ∈ seen
          · simp only [if_pos hseen]
            exact ih es es' seen hes
          · simp only [if_neg hseen]
            exact ih _ _ _ (forall₂_append_single hes ⟨rfl, rfl⟩)

/-- Insertion by time preserves key/time-relatedness. -/
theorem insertByTime_rel {e e' : SharedEntry} (he : EntryKeyTime e e') :
    ∀ {l l' : List SharedEntry}, List.Forall₂ EntryKeyTime l l' →
      List.Forall₂ EntryKeyTime (insertByTime e l) (insertByTime e' l') := by
  intro l l' h
  induction h with
  | nil => exact .cons he .nil
  | @cons a b l1 l2 h1 h2 ih =>
    simp only [insertByTime]
    by_cases hle : e.time ≤ a.time
    · rw [if_pos hle, if_pos (by rw [← he.2, ← h1.2]; exact hle)]
      exact .cons he (.cons h1 h2)
    · rw [if_neg hle, if_neg (by rw [← he.2, ← h1.2]; exact hle)]
      exact .cons h1 ih

/-- The stable sort by time preserves key/time-relatedness. -/
theorem sortByTime_rel {l l' : List SharedEntry}
    (h : List.Forall₂ EntryKeyTime l l') :
    List.Forall₂ EntryKeyTime (sortByTime l) (sortByTime l') := by
  induction h with
  | nil => exact .nil
  | cons h1 h2 ih => exact insertByTime_rel h1 ih

/-- Key/time-related entry lists yield equal anchor-key lists. -/
theorem forall₂_entryKeyTime_keymap {l l' : List SharedEntry}
    (h : List.Forall₂ EntryKeyTime l l') (pre : String) :
    l.map (anchorEntryKey pre) = l'.map (anchorEntryKey pre) := by
  induction h with
  | nil => rfl
  | cons h1 h2 ih => simp [anchorEntryKey, h1.1, ih]

/-- Every produced entry's key is the concatenation of its three ids. -/
theorem buildEntriesAux_key_shape (xK yK zK : List Keyframe) (threshold : Option ℚ) :
    ∀ (times : List ℚ) (es : List SharedEntry) (seen : List String),
      (∀ e ∈ es, e.key = e.x.id ++ "__" ++ e.y.id ++ "__" ++ e.z.id) →
      ∀ e ∈ buildEntriesAux xK yK zK threshold times es seen,
        e.key = e.x.id ++ "__" ++ e.y.id ++ "__" ++ e.z.id := by
  intro times
  induction times with
  | nil => intro es seen hinv e he; exact hinv e he
  | cons time rest ih =>
    intro es seen hinv e he
    cases hox : findClosestKeyframe xK time threshold with
    | none =>
      simp only [buildEntriesAux, hox] at he
      exact ih es seen hinv e he
    | some x =>
      cases hoy : findClosestKeyframe yK time threshold with
      | none =>
        simp only [buildEntriesAux, hox, hoy] at he
        exact ih es seen hinv e he
      | some y =>
        cases hoz : findClosestKeyframe zK time threshold with
        | none =>
          simp only [buildEntriesAux, hox, hoy, hoz] at he
          exact ih es seen hinv e he
        | some z =>
          simp only [buildEntriesAux, hox, hoy, hoz] at he
          by_cases hseen : x.id ++ "__" ++ y.id ++ "__" ++ z.id ∈ seen
          · rw [if_pos hseen] at he
            exact ih es seen hinv e he
          · rw [if_neg hseen] at he
            refine ih _ _ ?_ e he
            intro e' he'
            rcases List.mem_append.mp he' with h | h
            · exact hinv e' h
            · rw [List.mem_singleton] at h
              subst h
              rfl

/-- Membership is preserved by timed insertion. -/
theorem mem_insertByTime {e a : SharedEntry} :
    ∀ {l : List SharedEntry}, a ∈ insertByTime e l ↔ a = e ∨ a ∈ l := by
  intro l
  induction l with
  | nil => simp [insertByTime]
  | cons b rest ih =>
    simp only [insertByTime]
    by_cases h : e.time ≤ b.time
    · rw [if_pos h]
      simp [List.mem_cons]
    · rw [if_neg h]
      simp only [List.mem_cons, ih]
      tauto

/-- Membership is preserved by the stable sort. -/
theorem mem_sortByTime {a : SharedEntry} :
    ∀ {l : List SharedEntry}, a ∈ sortByTime l ↔ a ∈ l := by
  intro l
  induction l with
  | nil => simp [sortByTime]
  | cons b rest ih =>
    show a ∈ insertByTime b (sortByTime rest) ↔ _
    rw [mem_insertByTime]
    simp [List.mem_cons, ih]

/-- C6: rerunning the reconciliation over keyframe lists with unchanged ids
and positions (numeric values, handles, types and connection flags may all
have changed) produces anchor entries with identical keys in identical
order; and each anchor's key is a function only of the triple of
contributing keyframe ids together with the fixed prefix. -/
theorem anchor_identity_stability (xK xK' yK yK' zK zK' : List Keyframe)
    (threshold : Option ℚ) (pre : String)
    (hx : List.Forall₂ SameIdPos xK xK')
    (hy : List.Forall₂ SameIdPos yK yK')
    (hz : List.Forall₂ SameIdPos zK zK') :
    (buildSharedEntries xK yK zK threshold).map (anchorEntryKey pre)
      = (buildSharedEntries xK' yK' zK' threshold).map (anchorEntryKey pre) ∧
    ∀ e ∈ buildSharedEntries xK yK zK threshold,
      e.key = e.x.id ++ "__" ++ e.y.id ++ "__" ++ e.z.id ∧
      anchorEntryKey pre e = makeObjectKey pre [e.x.id ++ "__" ++ e.y.id ++ "__" ++ e.z.id] := by
  constructor
  · have hsame : (xK'.map Keyframe.position) ++ yK'.map Keyframe.position
        ++ zK'.map Keyframe.position
        = (xK.map Keyframe.position) ++ yK.map Keyframe.position
          ++ zK.map Keyframe.position := by
      rw [forall₂_sameIdPos_posmap hx, forall₂_sameIdPos_posmap hy, forall₂_sameIdPos_posmap hz]
    unfold buildSharedEntries
    rw [hsame]
    exact forall₂_entryKeyTime_keymap
      (sortByTime_rel (buildEntriesAux_rel hx hy hz threshold _ [] [] [] .nil)) pre
  · intro e he
    have hkey := buildEntriesAux_key_shape xK yK zK threshold _ [] []
      (by intro e' he'; cases he') e (mem_sortByTime.mp he)
    exact ⟨hkey, by rw [anchorEntryKey, hkey]⟩

/-- Witness for C6: one-keyframe tracks whose values, handles, types and
connection flags all changed between the two passes while ids and
positions stayed. -/
theorem anchor_identity_stability_witness :
    (List.Forall₂ SameIdPos [c6X] [c6X2] ∧ List.Forall₂ SameIdPos [c6Y] [c6Y2] ∧
      List.Forall₂ SameIdPos [c6Z] [c6Z2]) ∧
    ((buildSharedEntries [c6X] [c6Y] [c6Z] (some TIME_MATCH_EPSILON)).map
        (anchorEntryKey "CamPathHandle")
      = (buildSharedEntries [c6X2] [c6Y2] [c6Z2] (some TIME_MATCH_EPSILON)).map
        (anchorEntryKey "CamPathHandle") ∧
      ∀ e ∈ buildSharedEntries [c6X] [c6Y] [c6Z] (some TIME_MATCH_EPSILON),
        e.key = e.x.id ++ "__" ++ e.y.id ++ "__" ++ e.z.id ∧
        anchorEntryKey "CamPathHandle" e
          = makeObjectKey "CamPathHandle" [e.x.id ++ "__" ++ e.y.id ++ "__" ++ e.z.id]) :=
  ⟨⟨.cons ⟨rfl, rfl⟩ .nil, .cons ⟨rfl, rfl⟩ .nil, .cons ⟨rfl, rfl⟩ .nil⟩,
    anchor_identity_stability [c6X] [c6X2] [c6Y] [c6Y2] [c6Z] [c6Z2]
      (some TIME_MATCH_EPSILON) "CamPathHandle"
      (.cons ⟨rfl, rfl⟩ .nil) (.cons ⟨rfl, rfl⟩ .nil) (.cons ⟨rfl, rfl⟩ .nil)⟩

/-! ### Claim C2: neighbor-tangent compensation -/

/-- C2 counterexample: dragging the keyframe with value 10 to 20 beside a
neighbor of value 0 and incoming ratio handles[1] = 2 writes back the
ratio 3/2; the absolute control ordinate over the shifted span is then
0 + (20 - 0) * (3/2) = 30, while before the edit it was
0 + (10 - 0) * 2 = 20: the absolute control point is not preserved (it is
shifted by the value delta 10). -/
theorem neighbor_compensation_counterexample :
    collectHandleUpdates [c2Prev, c2Cur] (some c2Cur) 20 (some "t")
      = [⟨"t", "c", none, some (0, 3 / 2)⟩] ∧
    POSITION_EPSILON < |(20 : ℚ) - 10| ∧
    (0 : ℚ) + (20 - 0) * (3 / 2) ≠ 0 + (10 - 0) * 2 := by
  have hpc : ("p" = "c") = False := eq_false (by decide)
  have hbh : ("bezier" = "hold") = False := eq_false (by decide)
  refine ⟨?_, by norm_num [POSITION_EPSILON], by norm_num⟩
  norm_num [collectHandleUpdates, findIndexById, c2Prev, c2Cur, approxEqual,
    POSITION_EPSILON, hpc, hbh, abs_div, abs_one, abs_two]

/-- C2 (amended): the prev-neighbor block of collectHandleUpdates writes
compensatedEndRatio, which shifts the absolute control ordinate by exactly
the value delta — equivalently, it preserves the control ordinate relative
to the dragged keyframe's value — rather than preserving the absolute
control ordinate itself (which the counterexample refutes). -/
theorem neighbor_compensation_shifts_control (prevK curK : Keyframe)
    (newValue : ℚ) (tid : String) (oldValue prevValue : ℚ)
    (hid : prevK.id ≠ curK.id)
    (hcurv : curK.value = some oldValue)
    (hprevv : prevK.value = some prevValue)
    (hconn : prevK.connectedRight = true)
    (hhold : prevK.type ≠ "hold")
    (hdelta : POSITION_EPSILON < |newValue - oldValue|)
    (hdenom : POSITION_EPSILON < |newValue - prevValue|)
    (hchange : approxEqual (compensatedEndRatio prevValue oldValue newValue curK.h1) curK.h1
        POSITION_EPSILON = false) :
    collectHandleUpdates [prevK, curK] (some curK) newValue (some tid)
      = [⟨tid, curK.id, none,
          some (curK.h0, compensatedEndRatio prevValue oldValue newValue curK.h1)⟩] ∧
    prevValue + (newValue - prevValue) * compensatedEndRatio prevValue oldValue newValue curK.h1
      = prevValue + (oldValue - prevValue) * curK.h1 + (newValue - oldValue) ∧
    (prevValue + (newValue - prevValue) *
        compensatedEndRatio prevValue oldValue newValue curK.h1) - newValue
      = (prevValue + (oldValue - prevValue) * curK.h1) - oldValue := by
  have hden0 : newValue - prevValue ≠ 0 := by
    intro h0
    rw [h0] at hdenom
    norm_num [POSITION_EPSILON] at hdenom
  have halg : prevValue + (newValue - prevValue) *
      compensatedEndRatio prevValue oldValue newValue curK.h1
      = prevValue + (oldValue - prevValue) * curK.h1 + (newValue - oldValue) := by
    unfold compensatedEndRatio
    field_simp
  have hnd : ¬ (|newValue - oldValue| ≤ POSITION_EPSILON) := not_le.mpr hdelta
  have hch2 : approxEqual ((prevValue + (oldValue - prevValue) * curK.h1 + (newValue - oldValue)
      - prevValue) / (newValue - prevValue)) curK.h1 POSITION_EPSILON = false := hchange
  refine ⟨?_, halg, by linarith [halg]⟩
  simp [collectHandleUpdates, findIndexById, hid, hcurv, hprevv, hconn, hhold, hnd,
    hdenom, hch2, compensatedEndRatio]

/-- Witness for the amended C2 at the concrete drag of the counterexample. -/
theorem neighbor_compensation_shifts_control_witness :
    (c2Prev.id ≠ c2Cur.id ∧ POSITION_EPSILON < |(20 : ℚ) - 10| ∧
      POSITION_EPSILON < |(20 : ℚ) - 0| ∧
      approxEqual (compensatedEndRatio 0 10 20 c2Cur.h1) c2Cur.h1 POSITION_EPSILON = false) ∧
    (collectHandleUpdates [c2Prev, c2Cur] (some c2Cur) 20 (some "t")
        = [⟨"t", c2Cur.id, none, some (c2Cur.h0, compensatedEndRatio 0 10 20 c2Cur.h1)⟩] ∧
      (0 : ℚ) + (20 - 0) * compensatedEndRatio 0 10 20 c2Cur.h1
        = 0 + (10 - 0) * c2Cur.h1 + (20 - 10) ∧
      ((0 : ℚ) + (20 - 0) * compensatedEndRatio 0 10 20 c2Cur.h1) - 20
        = ((0 : ℚ) + (10 - 0) * c2Cur.h1) - 10) :=
  ⟨⟨by decide, by norm_num [POSITION_EPSILON], by norm_num [POSITION_EPSILON],
      by norm_num [approxEqual, compensatedEndRatio, POSITION_EPSILON, c2Cur,
        decide_eq_false_iff_not, abs_div, abs_one, abs_two]⟩,
    neighbor_compensation_shifts_control c2Prev c2Cur 20 "t" 10 0
      (by decide) rfl rfl rfl (by decide)
      (by norm_num [POSITION_EPSILON]) (by norm_num [POSITION_EPSILON])
      (by norm_num [approxEqual, compensatedEndRatio, POSITION_EPSILON, c2Cur,
        decide_eq_false_iff_not, abs_div, abs_one, abs_two])⟩

/-! ### Claim C3: echo suppression for in-flight writes -/

/-- C3 counterexample: with an unflushed pending entry (1, 1, 1) for the
handle, a genuine observed change to (5, 0, 0) (outside the drag-noise
radius and not approximately the expected position) is not ignored: the
listener queues it, replacing the pending entry with the new position. -/
theorem echo_pending_counterexample :
    c3State.pending = some (1, 1, 1) ∧
    (anchorListenerStep c3State (some (some 5, some 0, some 0))).pending = some (5, 0, 0) ∧
    (anchorListenerStep c3State (some (some 5, some 0, some 0))).pending ≠ c3State.pending := by
  refine ⟨rfl, ?_, ?_⟩ <;>
    norm_num [anchorListenerStep, c3State, distSq, queueHandleUpdate, approxEqual,
      HANDLE_DRAG_EPSILON, POSITION_EPSILON]

/-- C3 (amended): the anchor listener never consults the pending-update
queue.  A notification that passes the self-sync, finiteness, drag-noise
and expected-position checks is queued regardless of any unflushed pending
entry for the handle, overwriting that entry with the newly observed
position (the per-frame coalescing of the queue); a pending entry only
suppresses the snapshot-proxy position sync during reconciliation, not the
listener. -/
theorem anchor_listener_overwrites_pending (s : AnchorListenerState)
    (px py pz : ℚ) (e : ℚ × ℚ × ℚ)
    (hsync : s.sync = false)
    (hexp : s.expected = some e)
    (hnoise : ¬ distSq e (px, py, pz) < HANDLE_DRAG_EPSILON ^ 2)
    (happrox : ¬ (approxEqual px e.1 POSITION_EPSILON = true ∧
        approxEqual py e.2.1 POSITION_EPSILON = true ∧
        approxEqual pz e.2.2 POSITION_EPSILON = true))
    (hdata : s.hasHandleData = true) :
    (anchorListenerStep s (some (some px, some py, some pz))).pending = some (px, py, pz) := by
  simp [anchorListenerStep, hsync, hexp, hnoise, happrox, hdata, queueHandleUpdate]

/-- Witness for the amended C3 at the counterexample's state. -/
theorem anchor_listener_overwrites_pending_witness :
    (c3State.sync = false ∧ c3State.expected = some (0, 0, 0) ∧
      c3State.pending = some (1, 1, 1) ∧ c3State.hasHandleData = true ∧
      ¬ distSq (0, 0, 0) (5, 0, 0) < HANDLE_DRAG_EPSILON ^ 2) ∧
    (anchorListenerStep c3State (some (some 5, some 0, some 0))).pending = some (5, 0, 0) :=
  ⟨⟨rfl, rfl, rfl, rfl, by norm_num [distSq, HANDLE_DRAG_EPSILON]⟩,
    anchor_listener_overwrites_pending c3State 5 0 0 (0, 0, 0) rfl rfl
      (by norm_num [distSq, HANDLE_DRAG_EPSILON])
      (by norm_num [approxEqual, POSITION_EPSILON])
      rfl⟩

/-! ### Claim C5: inverse ratio correctness -/

/-- C5: when the segment value span exceeds POSITION_EPSILON, the tangent
inverse mapping writes back exactly (current - startValue)/(endValue -
startValue) — for an out handle against the start keyframe's outgoing
ratio handles[3], symmetrically for an in handle against the end
keyframe's incoming ratio handles[1] — and the write happens exactly when
the recomputed ratio differs from the existing one by more than
POSITION_EPSILON. -/
theorem inverse_ratio_correct (startKf endKf : Keyframe) (current : ℚ) (tid : String)
    (startValue endValue : ℚ)
    (hsv : startKf.value = some startValue)
    (hev : endKf.value = some endValue)
    (hspan : POSITION_EPSILON < |endValue - startValue|) :
    tangentAxisUpdate TangentKind.out startKf endKf current (some tid)
      = (if approxEqual ((current - startValue) / (endValue - startValue)) startKf.h3
            POSITION_EPSILON
        then none
        else some ⟨tid, startKf.id,
          some (startKf.h2, (current - startValue) / (endValue - startValue)), none⟩) ∧
    tangentAxisUpdate TangentKind.inn startKf endKf current (some tid)
      = (if approxEqual ((current - startValue) / (endValue - startValue)) endKf.h1
            POSITION_EPSILON
        then none
        else some ⟨tid, endKf.id, none,
          some (endKf.h0, (current - startValue) / (endValue - startValue))⟩) := by
  have hcr : ∀ fbr, computeRatio startValue endValue current fbr
      = (current - startValue) / (endValue - startValue) := by
    intro fbr
    unfold computeRatio
    rw [if_neg (not_le.mpr hspan)]
  constructor <;> simp only [tangentAxisUpdate, hsv, hev, hcr]

/-- Witness for C5: the claim's own concrete instance — start value 0, end
value 10, out handle's axis dragged to 5/2 = 2.5 — yields ratio 1/4 = 0.25
and an emitted write. -/
theorem inverse_ratio_correct_witness :
    (c5Start.value = some 0 ∧ c5End.value = some 10 ∧
      POSITION_EPSILON < |(10 : ℚ) - 0| ∧
      ((5 / 2 : ℚ) - 0) / (10 - 0) = 1 / 4) ∧
    (tangentAxisUpdate TangentKind.out c5Start c5End (5 / 2) (some "t")
        = (if approxEqual (((5 / 2 : ℚ) - 0) / (10 - 0)) c5Start.h3 POSITION_EPSILON
          then none
          else some ⟨"t", c5Start.id,
            some (c5Start.h2, ((5 / 2 : ℚ) - 0) / (10 - 0)), none⟩) ∧
      tangentAxisUpdate TangentKind.inn c5Start c5End (5 / 2) (some "t")
        = (if approxEqual (((5 / 2 : ℚ) - 0) / (10 - 0)) c5End.h1 POSITION_EPSILON
          then none
          else some ⟨"t", c5End.id, none,
            some (c5End.h0, ((5 / 2 : ℚ) - 0) / (10 - 0))⟩)) :=
  ⟨⟨rfl, rfl, by norm_num [POSITION_EPSILON], by norm_num⟩,
    inverse_ratio_correct c5Start c5End (5 / 2) "t" 0 10 rfl rfl
      (by norm_num [POSITION_EPSILON])⟩

/-! ### Claim C8: even tangent polyline -/

/-- C8: after every computePath pass the emitted tangent-line point list has
an even number of vertices: non-finite points are filtered out first, and a
dangling odd last vertex is discarded.  Proved for every candidate point
list, hence for the output of every reconciliation pass. -/
theorem tangent_polyline_even (pts : List JsVec3) :
    (safeTangentLinePoints pts).length % 2 = 0 := by
  unfold safeTangentLinePoints
  by_cases h : (pts.filter isFiniteVec3).length % 2 = 0
  · simp [h]
  · simp only [h, if_pos, ne_eq, not_false_iff, if_true, List.length_dropLast]
    omega

/-! ### Claim C9: visibility store emit-iff-change -/

/-- C9: setTheatreEnhanceState stores the merged state in every case and
runs emit() (invoking the subscribed listeners) exactly when the merged
helpersVisible differs from the current one; the initial state has
helpersVisible = true. -/
theorem visibility_store_emit_iff_change (current : EnhanceState) (next : EnhanceStatePatch) :
    (setTheatreEnhanceState current next).1 = mergeEnhanceState current next ∧
    (setTheatreEnhanceState current next).2 =
      !((mergeEnhanceState current next).helpersVisible == current.helpersVisible) ∧
    initialEnhanceState.helpersVisible = true := by
  obtain ⟨c⟩ := current
  obtain ⟨n⟩ := next
  cases n with
  | none =>
    cases c <;> simp [setTheatreEnhanceState, mergeEnhanceState, initialEnhanceState]
  | some v =>
    cases v <;> cases c <;>
      simp [setTheatreEnhanceState, mergeEnhanceState, initialEnhanceState]

end TheatreEnhance
